import Mathlib

/-!
Shallow embedding of the standup-agent orchestration core: the tool executor
with its access-control validators and error normalizer (src/agent/tools.ts)
and the conversation driver with its two session modes (src/agent/loop.ts).

Modelling conventions:
- JavaScript values that may be `undefined` (missing tool-input fields) are
  `Option String`; a thrown JavaScript exception is the `.error` branch of an
  `Except String` computation, carrying the exception message.
- The three data-fetch collaborators, the Slack-posting collaborator, the
  inference provider and the wall clock are out of scope per the spec and are
  modelled as oracles (`NetOracle`, `Env.inference`); every network call the
  executor makes is recorded in an explicit trace of `NetCall` values.
- `JSON.stringify` is modelled by `JsValue.stringify` over a JSON value type;
  collaborator payloads are opaque `JsValue` terms (their numeric fields are
  modelled as strings, which the executor never inspects), and the exact
  whitespace of pretty-printed stringify output is abstracted.
-/

namespace StandupAgent

/-- A JavaScript string that may be `undefined` (a missing input field). -/
abbrev JsStr := Option String

/-- String interpolation of a possibly-undefined JavaScript value. -/
def jsRender : JsStr → String
  | none => "undefined"
  | some s => s

/-- Message of the TypeError thrown by calling toLowerCase on undefined. -/
def tlcUndefinedMsg : String :=
  "TypeError: cannot read toLowerCase of undefined"

/-- JavaScript `String.prototype.toLowerCase`, character by character. -/
def jsToLower (s : String) : String := ⟨s.data.map Char.toLower⟩

/-- JavaScript `String.prototype.trim`: strip whitespace from both ends. -/
def jsTrim (s : String) : String :=
  ⟨((s.data.dropWhile Char.isWhitespace).reverse.dropWhile Char.isWhitespace).reverse⟩

/-- An upstream JavaScript failure value: an Error object carrying a message,
or an arbitrary non-Error value already coerced to a string. -/
inductive JsError where
  | jsError (message : String)
  | nonError (stringified : String)
deriving DecidableEq

/-- The `error instanceof Error ? error.message : String(error)` idiom. -/
def jsErrMessage : JsError → String
  | .jsError m => m
  | .nonError s => s

/-- One entry of the repository allow-list: an (owner, repo) pair. -/
structure RepoId where
  owner : String
  repo : String
deriving DecidableEq

/-- A standup entry as supplied by the planner to the posting tool. -/
structure StandupEntry where
  username : String
  yesterday : List String
  today : List String
  blockers : List String
deriving DecidableEq

/-- A note as handed to the Slack-posting collaborator (rawSummary is ""). -/
structure SlackNote where
  username : String
  yesterday : List String
  today : List String
  blockers : List String
  rawSummary : String
deriving DecidableEq

/-- The per-session tool context (`ToolContext` in src/agent/tools.ts): the
posting credentials, the lookback lower bound, and the two optional
allow-lists.  The data-source handle itself lives in the network oracle. -/
structure ToolContext where
  slackToken : String
  slackChannelId : String
  timezone : String
  since : String
  allowedRepos : Option (List RepoId) := none
  allowedMembers : Option (List String) := none
deriving DecidableEq

/-- A loosely-typed tool-input record; absent fields are `none`. -/
structure ToolInput where
  owner : JsStr := none
  repo : JsStr := none
  username : JsStr := none
  standup_notes : Option (List StandupEntry) := none
deriving DecidableEq

/-- JavaScript `Array.prototype.some` with a callback that may throw:
short-circuits on the first `true`, propagates the first thrown exception. -/
def jsSome (f : α → Except String Bool) : List α → Except String Bool
  | [] => .ok false
  | a :: as =>
    match f a with
    | .error e => .error e
    | .ok true => .ok true
    | .ok false => jsSome f as

/-- The repo denial message built by `validateRepo`, enumerating the full
configured allow-list. -/
def repoDenialMsg (owner repo : JsStr) (allowed : List RepoId) : String :=
  "Access denied: repository \"" ++ jsRender owner ++ "/" ++ jsRender repo ++
    "\" is not in the configured list. Allowed repos: " ++
    String.intercalate ", " (allowed.map (fun r => r.owner ++ "/" ++ r.repo))

/-- `validateRepo` from src/agent/tools.ts.  Returns `.ok none` when allowed,
`.ok (some msg)` when denied, and `.error` when the JavaScript code would
throw (toLowerCase on an undefined owner or repo).  The callback mirrors the
short-circuit evaluation order of
`r.owner.toLowerCase() === owner.toLowerCase() && r.repo.toLowerCase() === repo.toLowerCase()`. -/
def validateRepo (owner repo : JsStr) (ctx : ToolContext) :
    Except String (Option String) :=
  match ctx.allowedRepos with
  | none => .ok none
  | some allowedRepos =>
    match jsSome (fun r =>
        match owner with
        | none => .error tlcUndefinedMsg
        | some o =>
          if jsToLower r.owner == jsToLower o then
            match repo with
            | none => .error tlcUndefinedMsg
            | some rp => .ok (jsToLower r.repo == jsToLower rp)
          else .ok false) allowedRepos with
    | .error e => .error e
    | .ok true => .ok none
    | .ok false => .ok (some (repoDenialMsg owner repo allowedRepos))

/-- The member denial message built by `validateMember`, enumerating the full
configured allow-list. -/
def memberDenialMsg (username : JsStr) (allowed : List String) : String :=
  "Access denied: \"" ++ jsRender username ++
    "\" is not a configured team member. Allowed members: " ++
    String.intercalate ", " allowed

/-- `validateMember` from src/agent/tools.ts, with the same conventions as
`validateRepo`. -/
def validateMember (username : JsStr) (ctx : ToolContext) :
    Except String (Option String) :=
  match ctx.allowedMembers with
  | none => .ok none
  | some allowedMembers =>
    match jsSome (fun m =>
        match username with
        | none => .error tlcUndefinedMsg
        | some u => .ok (jsToLower m == jsToLower u)) allowedMembers with
    | .error e => .error e
    | .ok true => .ok none
    | .ok false => .ok (some (memberDenialMsg username allowedMembers))

/-- Spec-side definition (for the refinement claim about AccessGuard): the
repo check is a pure case-insensitive set-membership test; true when no
allow-list is configured. -/
def repoAllowedSpec (owner repo : String) (allowed : Option (List RepoId)) : Bool :=
  match allowed with
  | none => true
  | some l => l.any (fun r =>
      jsToLower r.owner == jsToLower owner && jsToLower r.repo == jsToLower repo)

/-- Spec-side definition: the member check is a pure case-insensitive
set-membership test over the flat username list. -/
def memberAllowedSpec (username : String) (allowed : Option (List String)) : Bool :=
  match allowed with
  | none => true
  | some l => l.any (fun m => jsToLower m == jsToLower username)

/-- Whether the character list `p` occurs at the start of `l`. -/
def leadsWith : List Char → List Char → Bool
  | c :: cs, d :: ds => if c = d then leadsWith cs ds else false
  | [], _ => true
  | _ :: _, [] => false

/-- Whether the character list `p` occurs anywhere inside the second list. -/
def hasSubAux (p : List Char) : List Char → Bool
  | [] => p.isEmpty
  | c :: t => leadsWith p (c :: t) || hasSubAux p t

/-- JavaScript `String.prototype.includes`. -/
def strIncludes (s pat : String) : Bool := hasSubAux pat.data s.data

/-- Fixed category message for not-found / 404 GitHub errors. -/
def notFoundMsg : String :=
  "Repository or user not found. The repo may be private or the name may be incorrect."

/-- Fixed category message for bad-credentials / 401 GitHub errors. -/
def badCredsMsg : String :=
  "GitHub authentication failed. The token may be invalid or expired."

/-- Fixed category message for rate-limit / 403 GitHub errors. -/
def rateLimitMsg : String :=
  "GitHub API rate limit exceeded. Please wait a few minutes and try again."

/-- `formatGitHubError` from src/agent/tools.ts: the error-normalizing map. -/
def formatGitHubError : JsError → String
  | .nonError s => s
  | .jsError msg =>
    if strIncludes msg "Not Found" || strIncludes msg "404" then notFoundMsg
    else if strIncludes msg "Bad credentials" || strIncludes msg "401" then badCredsMsg
    else if strIncludes msg "rate limit" || strIncludes msg "403" then rateLimitMsg
    else msg

mutual

/-- JSON values as they cross the executor boundary through JSON.stringify
(collaborator payloads; numeric fields are modelled as strings, which the
executor never inspects). -/
inductive JsValue where
  | jnull : JsValue
  | jbool : Bool → JsValue
  | jstr : String → JsValue
  | jarr : JsArrElems → JsValue
  | jobj : JsObjFields → JsValue

/-- The elements of a JSON array value. -/
inductive JsArrElems where
  | anil : JsArrElems
  | acons : JsValue → JsArrElems → JsArrElems

/-- The key-value fields of a JSON object value. -/
inductive JsObjFields where
  | fnil : JsObjFields
  | fcons : String → JsValue → JsObjFields → JsObjFields

end

/-- The left brace character, spelled via its code point. -/
def lbraceChar : Char := Char.ofNat 123

/-- The right brace character, spelled via its code point. -/
def rbraceChar : Char := Char.ofNat 125

/-- The double-quote character. -/
def quoteChar : Char := Char.ofNat 34

/-- The backslash character. -/
def backslashChar : Char := Char.ofNat 92

/-- JSON string escaping of one character. -/
def escapeChar (c : Char) : List Char :=
  if c == quoteChar then [backslashChar, quoteChar]
  else if c == backslashChar then [backslashChar, backslashChar]
  else if c == Char.ofNat 10 then [backslashChar, 'n']
  else [c]

/-- JSON string escaping of a character list. -/
def escapeList (cs : List Char) : List Char := cs.flatMap escapeChar

mutual

/-- Characters of the serialized form of a JSON value. -/
def stringifyChars : JsValue → List Char
  | .jnull => ['n', 'u', 'l', 'l']
  | .jbool true => ['t', 'r', 'u', 'e']
  | .jbool false => ['f', 'a', 'l', 's', 'e']
  | .jstr s => quoteChar :: (escapeList s.data ++ [quoteChar])
  | .jarr es => '[' :: (stringifyElems es ++ [']'])
  | .jobj fs => lbraceChar :: (stringifyFields fs ++ [rbraceChar])

/-- Characters of the comma-separated elements of a JSON array. -/
def stringifyElems : JsArrElems → List Char
  | .anil => []
  | .acons j .anil => stringifyChars j
  | .acons j (JsArrElems.acons j2 tl) =>
      stringifyChars j ++ (',' :: stringifyElems (JsArrElems.acons j2 tl))

/-- Characters of the comma-separated fields of a JSON object. -/
def stringifyFields : JsObjFields → List Char
  | .fnil => []
  | .fcons k v .fnil =>
      quoteChar :: (escapeList k.data ++ (quoteChar :: ':' :: stringifyChars v))
  | .fcons k v (JsObjFields.fcons k2 v2 tl) =>
      (quoteChar :: (escapeList k.data ++ (quoteChar :: ':' :: stringifyChars v)))
        ++ (',' :: stringifyFields (JsObjFields.fcons k2 v2 tl))

end

/-- The serialized form of a JSON value (JSON.stringify). -/
def JsValue.stringify (j : JsValue) : String := ⟨stringifyChars j⟩

/-- The one-field object carrying an error message under the key error. -/
def errJson (msg : String) : JsValue :=
  JsValue.jobj (JsObjFields.fcons "error" (JsValue.jstr msg) JsObjFields.fnil)

/-- `JSON.stringify` of a structured error payload. -/
def jsonErr (msg : String) : String := JsValue.stringify (errJson msg)

/-- One network call made by the executor, recorded with its arguments. -/
inductive NetCall where
  | commitsCall (owner repo username : JsStr) (since : String)
  | prsCall (owner repo username : JsStr) (since : String)
  | issuesCall (owner repo username : JsStr) (since : String)
  | slackCall (token channelId : String) (notes : List SlackNote)
      (header dateLabel : String)
deriving DecidableEq

/-- The external world at the tool boundary: the three data-fetch
collaborators (which return a JSON payload or throw), the Slack-posting
collaborator, and the wall-clock date label used in the Slack header. -/
structure NetOracle where
  commitsData : JsStr → JsStr → JsStr → String → Except JsError JsValue
  prsData : JsStr → JsStr → JsStr → String → Except JsError JsValue
  issuesData : JsStr → JsStr → JsStr → String → Except JsError JsValue
  slackPost : String → String → List SlackNote → String → String → Except JsError Unit
  dateLabel : String

deriving instance DecidableEq for Except

/-- Outcome of one `executeTool` run: the returned string (or the message of
an exception escaping the executor) together with the trace of network calls
it performed. -/
structure ExecOutcome where
  result : Except String String
  calls : List NetCall
deriving DecidableEq

/-- Validation-error message for an empty or missing standup array. -/
def noNotesMsg : String :=
  "No standup notes provided. Include at least one team member."

/-- The usernames in the standup that fail the member allow-list check. -/
def invalidUsersOf (notes : List StandupEntry) (allowedMembers : List String) :
    List String :=
  (notes.filter (fun e =>
      !(allowedMembers.any (fun m => jsToLower m == jsToLower e.username)))).map
    (fun e => e.username)

/-- The posting-tool denial message for non-team members. -/
def postDenialMsg (invalidUsers allowedMembers : List String) : String :=
  "Access denied: standup includes non-team members: " ++
    String.intercalate ", " invalidUsers ++ ". Allowed: " ++
    String.intercalate ", " allowedMembers

/-- The posting tool's plain success confirmation string. -/
def postConfirmMsg (n : Nat) : String :=
  "Standup posted to Slack for " ++ toString n ++ " team member(s)."

/-- Slack auth failure message returned by the posting branch. -/
def slackAuthMsg : String :=
  "Slack authentication failed. Check your SLACK_USER_TOKEN."

/-- Slack channel-not-found message returned by the posting branch. -/
def slackChannelMsg : String :=
  "Slack channel not found. Check your SLACK_CHANNEL_ID."

/-- The fixed Slack header string. -/
def standupHeader : String := "🌅 Daily Standup"

/-- Classification of a Slack posting failure message, as in the catch
branch of the posting tool. -/
def slackFailureMsg (msg : String) : String :=
  if strIncludes msg "invalid_auth" || strIncludes msg "not_authed" then
    slackAuthMsg
  else if strIncludes msg "channel_not_found" then slackChannelMsg
  else "Slack posting failed: " ++ msg

/-- The common body of the three read tools in `executeTool`: repo allow-list
check, then member allow-list check, then the fetch (whose upstream failures
are caught and shaped by `formatGitHubError`). -/
def fetchToolRun (fetch : JsStr → JsStr → JsStr → String → Except JsError JsValue)
    (call : JsStr → JsStr → JsStr → String → NetCall)
    (input : ToolInput) (ctx : ToolContext) : ExecOutcome :=
  match validateRepo input.owner input.repo ctx with
  | .error e => ⟨.error e, []⟩
  | .ok (some repoErr) => ⟨.ok (jsonErr repoErr), []⟩
  | .ok none =>
    match validateMember input.username ctx with
    | .error e => ⟨.error e, []⟩
    | .ok (some memberErr) => ⟨.ok (jsonErr memberErr), []⟩
    | .ok none =>
      match fetch input.owner input.repo input.username ctx.since with
      | .ok data =>
          ⟨.ok (JsValue.stringify data), [call input.owner input.repo input.username ctx.since]⟩
      | .error e =>
          ⟨.ok (jsonErr (formatGitHubError e)),
            [call input.owner input.repo input.username ctx.since]⟩

/-- The posting step shared by both allow-list configurations: map entries to
Slack notes (rawSummary "") and call the posting collaborator once, shaping
its failures into structured error payloads. -/
def postNotes (notes : List StandupEntry) (ctx : ToolContext) (net : NetOracle) :
    ExecOutcome :=
  let slackNotes := notes.map (fun e =>
    SlackNote.mk e.username e.yesterday e.today e.blockers "")
  let theCall := NetCall.slackCall ctx.slackToken ctx.slackChannelId slackNotes
    standupHeader net.dateLabel
  match net.slackPost ctx.slackToken ctx.slackChannelId slackNotes
      standupHeader net.dateLabel with
  | .ok _ => ⟨.ok (postConfirmMsg slackNotes.length), [theCall]⟩
  | .error err => ⟨.ok (jsonErr (slackFailureMsg (jsErrMessage err))), [theCall]⟩

/-- The `post_standup_to_slack` branch of `executeTool`: empty-array check,
then the per-entry member allow-list check (all entries validated before any
network call), then the single posting call. -/
def runPostStandup (input : ToolInput) (ctx : ToolContext) (net : NetOracle) :
    ExecOutcome :=
  match input.standup_notes with
  | none => ⟨.ok (jsonErr noNotesMsg), []⟩
  | some [] => ⟨.ok (jsonErr noNotesMsg), []⟩
  | some notes =>
    match ctx.allowedMembers with
    | some allowedMembers =>
      if 0 < (invalidUsersOf notes allowedMembers).length then
        ⟨.ok (jsonErr (postDenialMsg (invalidUsersOf notes allowedMembers)
          allowedMembers)), []⟩
      else postNotes notes ctx net
    | none => postNotes notes ctx net

/-- `executeTool` from src/agent/tools.ts: dispatch on the tool name. -/
def executeTool (name : String) (input : ToolInput) (ctx : ToolContext)
    (net : NetOracle) : ExecOutcome :=
  if name = "fetch_commits" then
    fetchToolRun net.commitsData NetCall.commitsCall input ctx
  else if name = "fetch_pull_requests" then
    fetchToolRun net.prsData NetCall.prsCall input ctx
  else if name = "fetch_issues" then
    fetchToolRun net.issuesData NetCall.issuesCall input ctx
  else if name = "post_standup_to_slack" then
    runPostStandup input ctx net
  else ⟨.ok (jsonErr ("Unknown tool: " ++ name)), []⟩

/-- The three read-tool names. -/
def fetchToolNames : List String :=
  ["fetch_commits", "fetch_pull_requests", "fetch_issues"]

/-- All four tool names. -/
def allToolNames : List String := fetchToolNames ++ ["post_standup_to_slack"]

/-- One content block of an inference response: text or a tool call carrying
its provider-assigned correlation identifier. -/
inductive Block where
  | text (s : String)
  | toolUse (id : String) (name : String) (input : ToolInput)
deriving DecidableEq

/-- A tool call extracted from a response. -/
structure ToolUse where
  id : String
  name : String
  input : ToolInput
deriving DecidableEq

/-- The tool-call blocks of a response, in response order
(`response.content.filter(block => block.type === "tool_use")`). -/
def toolUsesOf (content : List Block) : List ToolUse :=
  content.filterMap (fun b =>
    match b with
    | .toolUse id name input => some ⟨id, name, input⟩
    | .text _ => none)

/-- One tool-result content block; `is_error` is false when the flag is
absent in the JavaScript object. -/
structure ToolResultBlock where
  tool_use_id : String
  content : String
  is_error : Bool := false
deriving DecidableEq

/-- The content of one history entry. -/
inductive MsgContent where
  | text (s : String)
  | blocks (bs : List Block)
  | toolResults (rs : List ToolResultBlock)
deriving DecidableEq

/-- One entry of the append-only conversation history. -/
structure Message where
  role : String
  content : MsgContent
deriving DecidableEq

/-- A plain user entry. -/
def userMsg (s : String) : Message := ⟨"user", .text s⟩

/-- The assistant entry holding a raw inference response. -/
def assistantMsg (bs : List Block) : Message := ⟨"assistant", .blocks bs⟩

/-- The single user entry bundling all of one turn's tool results. -/
def toolResultsMsg (rs : List ToolResultBlock) : Message :=
  ⟨"user", .toolResults rs⟩

/-- The session environment: the inference provider (a function of the full
history, which may fail with a provider error) and the network oracle. -/
structure Env where
  inference : List Message → Except JsError (List Block)
  net : NetOracle

/-- Execute one tool call the way the driver's callback does: run
`executeTool` and shape its outcome into a tool-result block, attaching the
call's correlation identifier; an exception escaping the executor becomes a
serialized error payload with the `is_error` flag set. -/
def execToolUse (ctx : ToolContext) (net : NetOracle) (tu : ToolUse) :
    ToolResultBlock × List NetCall :=
  match executeTool tu.name tu.input ctx net with
  | ⟨.ok s, calls⟩ => (⟨tu.id, s, false⟩, calls)
  | ⟨.error e, calls⟩ => (⟨tu.id, jsonErr e, true⟩, calls)

/-- Placeholder tool use for out-of-range indices (never reached under the
permutation hypothesis). -/
def defaultToolUse : ToolUse := ⟨"", "", ⟨none, none, none, none⟩⟩

/-- Fan-out: run the turn's tool calls in an arbitrary completion order,
keeping each finished execution tagged with its input position. -/
def dispatchInOrder (ctx : ToolContext) (net : NetOracle) (tus : List ToolUse)
    (order : List Nat) : List (Nat × (ToolResultBlock × List NetCall)) :=
  order.map (fun i => (i, execToolUse ctx net (tus.getD i defaultToolUse)))

/-- Fan-in (the join performed by Promise.all): place each finished result
back at its input position, regardless of completion order. -/
def joinResults (n : Nat) (finished : List (Nat × (ToolResultBlock × List NetCall))) :
    List ToolResultBlock :=
  (List.range n).filterMap (fun i =>
    (finished.find? (fun p => p.fst == i)).map (fun p => p.snd.fst))

/-- Result of one driver turn: the done flag returned by `runAgentTurn`, the
updated history, and the network calls made during the turn. -/
structure TurnResult where
  done : Bool
  messages : List Message
  calls : List NetCall
deriving DecidableEq

/-- `runAgentTurn` from src/agent/loop.ts: one inference call; on provider
failure report done without touching history; otherwise append the response,
and if it contains tool calls execute them all and append the single
tool-results entry, reporting continue. -/
def runAgentTurn (env : Env) (ctx : ToolContext) (messages : List Message) :
    TurnResult :=
  match env.inference messages with
  | .error _ => ⟨true, messages, []⟩
  | .ok content =>
    let messages1 := messages ++ [assistantMsg content]
    let tus := toolUsesOf content
    if tus.isEmpty then ⟨true, messages1, []⟩
    else
      let executed := tus.map (execToolUse ctx env.net)
      ⟨false, messages1 ++ [toolResultsMsg (executed.map Prod.fst)],
        (executed.map Prod.snd).flatten⟩

/-- Terminal state of a bounded turn loop. -/
inductive SessionStatus where
  | done
  | exhausted
deriving DecidableEq

/-- Outcome of a bounded turn loop: terminal state, final history, and the
number of turns (inference calls) actually executed. -/
structure LoopOutcome where
  status : SessionStatus
  messages : List Message
  turns : Nat
deriving DecidableEq

/-- The fixed iteration ceiling of both session modes. -/
def MAX_ITERATIONS : Nat := 20

/-- Up to `fuel` further turns: stop with `done` as soon as a turn reports
finished, `exhausted` when the fuel runs out first. -/
def loopFrom (env : Env) (ctx : ToolContext) : Nat → List Message → LoopOutcome
  | 0, msgs => ⟨.exhausted, msgs, 0⟩
  | fuel + 1, msgs =>
    let t := runAgentTurn env ctx msgs
    if t.done then ⟨.done, t.messages, 1⟩
    else
      let r := loopFrom env ctx fuel t.messages
      ⟨r.status, r.messages, r.turns + 1⟩

/-- `runAgentLoop` from src/agent/loop.ts: the autonomous session, seeding
the fixed task description and driving at most `MAX_ITERATIONS` turns. -/
def runAgentLoop (env : Env) (ctx : ToolContext) (taskPrompt : String) :
    LoopOutcome :=
  loopFrom env ctx MAX_ITERATIONS [userMsg taskPrompt]

/-- Outcome of the interactive read-loop: final history and total number of
turns executed over all input lines. -/
structure InteractiveOutcome where
  messages : List Message
  turns : Nat
deriving DecidableEq

/-- `runInteractiveAgent` from src/agent/loop.ts, over the finite stream of
input lines: blank lines are skipped, `exit`/`quit` (trimmed,
case-insensitive) break the loop immediately, and every other line is
appended to the shared history and drives a bounded sub-loop.  The upfront
advisory credential check only logs and is not modelled. -/
def runInteractive (env : Env) (ctx : ToolContext) :
    List String → List Message → InteractiveOutcome
  | [], msgs => ⟨msgs, 0⟩
  | line :: rest, msgs =>
    let input := jsTrim line
    if input = "" then runInteractive env ctx rest msgs
    else if jsToLower input = "exit" ∨ jsToLower input = "quit" then ⟨msgs, 0⟩
    else
      let r := loopFrom env ctx MAX_ITERATIONS (msgs ++ [userMsg input])
      let k := runInteractive env ctx rest r.messages
      ⟨k.messages, r.turns + k.turns⟩

/-- Fixture: a network oracle whose fetches return an empty array and whose
posting call succeeds. -/
def quietNet : NetOracle :=
  ⟨fun _ _ _ _ => .ok (JsValue.jarr JsArrElems.anil),
   fun _ _ _ _ => .ok (JsValue.jarr JsArrElems.anil),
   fun _ _ _ _ => .ok (JsValue.jarr JsArrElems.anil),
   fun _ _ _ _ _ => .ok (),
   "Wednesday, February 18, 2026"⟩

/-- Fixture: a context whose allow-lists hold the repo acme/web and the
members alice and bob. -/
def ctxAcme : ToolContext :=
  ⟨"xoxp-token", "C01", "UTC", "2026-02-17T09:00:00Z",
   some [⟨"acme", "web"⟩], some ["alice", "bob"]⟩

/-- Fixture: an unrestricted context (no allow-lists configured). -/
def ctxOpen : ToolContext :=
  ⟨"xoxp-token", "C01", "UTC", "2026-02-17T09:00:00Z", none, none⟩

/-- Fixture: a context whose repo allow-list holds a single pair whose owner
differs from acme. -/
def ctxOther : ToolContext :=
  ⟨"xoxp-token", "C01", "UTC", "2026-02-17T09:00:00Z",
   some [⟨"someoneelse", "web"⟩], some ["alice"]⟩

/-- Fixture: a standup entry for alice. -/
def entryAlice : StandupEntry :=
  ⟨"alice", ["Shipped PR 42"], ["Work on issue 15"], []⟩

/-- Fixture: a posting input holding only alice's entry. -/
def inputPostAlice : ToolInput := ⟨none, none, none, some [entryAlice]⟩

/-- Fixture: a posting input holding only an entry for carol. -/
def inputPostCarol : ToolInput :=
  ⟨none, none, none, some [⟨"carol", [], [], []⟩]⟩

/-- Fixture: a posting input with an empty standup array. -/
def inputPostEmpty : ToolInput := ⟨none, none, none, some []⟩

/-- Fixture: a tool-call block fetching alice's commits from acme/web. -/
def blockFetchAlice : Block :=
  Block.toolUse "toolu_01" "fetch_commits" ⟨some "acme", some "web", some "alice", none⟩

/-- Fixture: a response holding two tool calls. -/
def contentTwo : List Block :=
  [blockFetchAlice,
   Block.toolUse "toolu_02" "fetch_issues" ⟨some "acme", some "web", some "bob", none⟩]

/-- Fixture: a provider that always issues one tool call. -/
def envLooping : Env := ⟨fun _ => .ok [blockFetchAlice], quietNet⟩

/-- Fixture: a provider that always issues the two-call response. -/
def envTwo : Env := ⟨fun _ => .ok contentTwo, quietNet⟩

/-- Fixture: a provider whose inference call throws an authentication-shaped
error. -/
def envFail : Env := ⟨fun _ => .error (.jsError "401 authentication_error"), quietNet⟩

/-- `jsSome` with a callback that never throws computes `List.any`. -/
theorem jsSome_of_pointwise (f : α → Except String Bool) (g : α → Bool)
    (l : List α) (h : ∀ a ∈ l, f a = .ok (g a)) :
    jsSome f l = .ok (l.any g) := by
  induction l with
  | nil => rfl
  | cons a as ih =>
    have ha := h a (List.mem_cons_self a as)
    have has : ∀ b ∈ as, f b = .ok (g b) :=
      fun b hb => h b (List.mem_cons_of_mem a hb)
    cases hg : g a with
    | true => simp [jsSome, ha, hg]
    | false => simp [jsSome, ha, hg, ih has]

/-- `jsSome` propagates an exception when the callback can only return false
or throw, and throws somewhere on the list. -/
theorem jsSome_error_of (f : α → Except String Bool) (e : String) (l : List α)
    (hall : ∀ a ∈ l, f a = .ok false ∨ f a = .error e)
    (hex : ∃ a ∈ l, f a = .error e) :
    jsSome f l = .error e := by
  induction l with
  | nil => rcases hex with ⟨a, ha, _⟩; cases ha
  | cons a as ih =>
    rcases hall a (List.mem_cons_self a as) with h | h
    · have hex2 : ∃ b ∈ as, f b = .error e := by
        rcases hex with ⟨b, hb, hfb⟩
        rcases List.mem_cons.mp hb with rfl | hb2
        · rw [h] at hfb; cases hfb
        · exact ⟨b, hb2, hfb⟩
      have := ih (fun b hb => hall b (List.mem_cons_of_mem a hb)) hex2
      simp [jsSome, h, this]
    · simp [jsSome, h]

/-- With no repo allow-list configured, `validateRepo` accepts anything. -/
theorem validateRepo_unrestricted (ow rp : JsStr) (ctx : ToolContext)
    (h : ctx.allowedRepos = none) : validateRepo ow rp ctx = .ok none := by
  unfold validateRepo
  rw [h]

/-- With no member allow-list configured, `validateMember` accepts anything. -/
theorem validateMember_unrestricted (u : JsStr) (ctx : ToolContext)
    (h : ctx.allowedMembers = none) : validateMember u ctx = .ok none := by
  unfold validateMember
  rw [h]

/-- On fully-given inputs, `validateRepo` never throws and computes exactly
the pure case-insensitive set-membership test. -/
theorem validateRepo_defined (o r : String) (L : List RepoId) (ctx : ToolContext)
    (hL : ctx.allowedRepos = some L) :
    validateRepo (some o) (some r) ctx
      = .ok (if repoAllowedSpec o r (some L) then none
             else some (repoDenialMsg (some o) (some r) L)) := by
  have hpt : ∀ a ∈ L,
      (fun p : RepoId =>
        match (some o : JsStr) with
        | none => (Except.error tlcUndefinedMsg : Except String Bool)
        | some o =>
          if jsToLower p.owner == jsToLower o then
            match (some r : JsStr) with
            | none => Except.error tlcUndefinedMsg
            | some rp => Except.ok (jsToLower p.repo == jsToLower rp)
          else Except.ok false) a
      = .ok ((fun p : RepoId =>
          jsToLower p.owner == jsToLower o && jsToLower p.repo == jsToLower r) a) := by
    intro a _
    cases hov : (jsToLower a.owner == jsToLower o) with
    | true => simp [hov]
    | false => simp [hov]
  simp only [validateRepo, hL, jsSome_of_pointwise _ _ L hpt]
  cases hany : L.any
      (fun p => jsToLower p.owner == jsToLower o && jsToLower p.repo == jsToLower r) with
  | true => simp [repoAllowedSpec, hany]
  | false => simp [repoAllowedSpec, hany]

/-- On a given username, `validateMember` never throws and computes exactly
the pure case-insensitive set-membership test. -/
theorem validateMember_defined (u : String) (L : List String) (ctx : ToolContext)
    (hL : ctx.allowedMembers = some L) :
    validateMember (some u) ctx
      = .ok (if memberAllowedSpec u (some L) then none
             else some (memberDenialMsg (some u) L)) := by
  have hpt : ∀ a ∈ L,
      (fun m : String =>
        match (some u : JsStr), m with
        | none, _ => (Except.error tlcUndefinedMsg : Except String Bool)
        | some u, m => Except.ok (jsToLower m == jsToLower u)) a
      = .ok ((fun m : String => jsToLower m == jsToLower u) a) :=
    fun a _ => rfl
  simp only [validateMember, hL, jsSome_of_pointwise _ _ L hpt]
  cases hany : L.any (fun m => jsToLower m == jsToLower u) with
  | true => simp [memberAllowedSpec, hany]
  | false => simp [memberAllowedSpec, hany]

/-- A missing owner makes `validateRepo` throw as soon as the configured
list is non-empty. -/
theorem validateRepo_owner_missing (rp : JsStr) (p : RepoId) (L : List RepoId)
    (ctx : ToolContext) (hL : ctx.allowedRepos = some (p :: L)) :
    validateRepo none rp ctx = .error tlcUndefinedMsg := by
  simp [validateRepo, hL, jsSome]

/-- A missing repo makes `validateRepo` throw exactly when some configured
pair's owner matches the given owner case-insensitively. -/
theorem validateRepo_repo_missing (o : String) (L : List RepoId)
    (ctx : ToolContext) (hL : ctx.allowedRepos = some L)
    (hex : ∃ p ∈ L, jsToLower p.owner = jsToLower o) :
    validateRepo (some o) none ctx = .error tlcUndefinedMsg := by
  have herr : jsSome (fun p : RepoId =>
      match (some o : JsStr) with
      | none => (Except.error tlcUndefinedMsg : Except String Bool)
      | some o =>
        if jsToLower p.owner == jsToLower o then
          match (none : JsStr) with
          | none => Except.error tlcUndefinedMsg
          | some rp => Except.ok (jsToLower p.repo == jsToLower rp)
        else Except.ok false) L = .error tlcUndefinedMsg := by
    apply jsSome_error_of
    · intro a _
      cases hov : (jsToLower a.owner == jsToLower o) with
      | true => right; simp [hov]
      | false => left; simp [hov]
    · rcases hex with ⟨p, hp, hpo⟩
      refine ⟨p, hp, ?_⟩
      have : (jsToLower p.owner == jsToLower o) = true := by
        simp [hpo]
      simp [this]
  simp only [validateRepo, hL, herr]

/-- A missing username makes `validateMember` throw as soon as the
configured list is non-empty. -/
theorem validateMember_username_missing (m : String) (M : List String)
    (ctx : ToolContext) (hM : ctx.allowedMembers = some (m :: M)) :
    validateMember none ctx = .error tlcUndefinedMsg := by
  simp [validateMember, hM, jsSome]

/-- `executeTool` on `fetch_commits` runs the common read-tool body. -/
theorem executeTool_commits (input : ToolInput) (ctx : ToolContext) (net : NetOracle) :
    executeTool "fetch_commits" input ctx net
      = fetchToolRun net.commitsData NetCall.commitsCall input ctx := rfl

/-- `executeTool` on `fetch_pull_requests` runs the common read-tool body. -/
theorem executeTool_prs (input : ToolInput) (ctx : ToolContext) (net : NetOracle) :
    executeTool "fetch_pull_requests" input ctx net
      = fetchToolRun net.prsData NetCall.prsCall input ctx := by
  simp [executeTool]

/-- `executeTool` on `fetch_issues` runs the common read-tool body. -/
theorem executeTool_issues (input : ToolInput) (ctx : ToolContext) (net : NetOracle) :
    executeTool "fetch_issues" input ctx net
      = fetchToolRun net.issuesData NetCall.issuesCall input ctx := by
  simp [executeTool]

/-- `executeTool` on `post_standup_to_slack` runs the posting branch. -/
theorem executeTool_post (input : ToolInput) (ctx : ToolContext) (net : NetOracle) :
    executeTool "post_standup_to_slack" input ctx net
      = runPostStandup input ctx net := by
  simp [executeTool]

/-- A repo denial short-circuits the read-tool body with no network call. -/
theorem fetchToolRun_repo_denied
    (fetch : JsStr → JsStr → JsStr → String → Except JsError JsValue)
    (call : JsStr → JsStr → JsStr → String → NetCall)
    (input : ToolInput) (ctx : ToolContext) (msg : String)
    (h : validateRepo input.owner input.repo ctx = .ok (some msg)) :
    fetchToolRun fetch call input ctx = ⟨.ok (jsonErr msg), []⟩ := by
  simp [fetchToolRun, h]

/-- An exception in the repo check escapes the read-tool body with no
network call. -/
theorem fetchToolRun_repo_throw
    (fetch : JsStr → JsStr → JsStr → String → Except JsError JsValue)
    (call : JsStr → JsStr → JsStr → String → NetCall)
    (input : ToolInput) (ctx : ToolContext) (e : String)
    (h : validateRepo input.owner input.repo ctx = .error e) :
    fetchToolRun fetch call input ctx = ⟨.error e, []⟩ := by
  simp [fetchToolRun, h]

/-- A member denial (after the repo check passed) short-circuits the
read-tool body with no network call. -/
theorem fetchToolRun_member_denied
    (fetch : JsStr → JsStr → JsStr → String → Except JsError JsValue)
    (call : JsStr → JsStr → JsStr → String → NetCall)
    (input : ToolInput) (ctx : ToolContext) (msg : String)
    (h1 : validateRepo input.owner input.repo ctx = .ok none)
    (h2 : validateMember input.username ctx = .ok (some msg)) :
    fetchToolRun fetch call input ctx = ⟨.ok (jsonErr msg), []⟩ := by
  simp [fetchToolRun, h1, h2]

/-- An exception in the member check (after the repo check passed) escapes
the read-tool body with no network call. -/
theorem fetchToolRun_member_throw
    (fetch : JsStr → JsStr → JsStr → String → Except JsError JsValue)
    (call : JsStr → JsStr → JsStr → String → NetCall)
    (input : ToolInput) (ctx : ToolContext) (e : String)
    (h1 : validateRepo input.owner input.repo ctx = .ok none)
    (h2 : validateMember input.username ctx = .error e) :
    fetchToolRun fetch call input ctx = ⟨.error e, []⟩ := by
  simp [fetchToolRun, h1, h2]

/-- Claim C6: the AccessGuard checks are pure case-insensitive exact
set-membership tests — `validateRepo` accepts iff no repo allow-list is
configured or some configured pair matches both components
case-insensitively, `validateMember` is analogous over the flat username
list, and every non-null denial is the message enumerating the full
configured allowed set. -/
theorem access_guard_set_membership (o r u : String) (ctx : ToolContext) :
    (validateRepo (some o) (some r) ctx = .ok none
      ↔ repoAllowedSpec o r ctx.allowedRepos = true)
    ∧ (∀ L, ctx.allowedRepos = some L → repoAllowedSpec o r (some L) = false →
        validateRepo (some o) (some r) ctx
          = .ok (some (repoDenialMsg (some o) (some r) L)))
    ∧ (validateMember (some u) ctx = .ok none
      ↔ memberAllowedSpec u ctx.allowedMembers = true)
    ∧ (∀ L, ctx.allowedMembers = some L → memberAllowedSpec u (some L) = false →
        validateMember (some u) ctx = .ok (some (memberDenialMsg (some u) L))) := by
  refine ⟨?_, ?_, ?_, ?_⟩
  · cases hL : ctx.allowedRepos with
    | none => simp [validateRepo_unrestricted _ _ _ hL, repoAllowedSpec]
    | some L =>
      rw [validateRepo_defined o r L ctx hL]
      cases hs : repoAllowedSpec o r (some L) <;> simp [hs]
  · intro L hL hs
    rw [validateRepo_defined o r L ctx hL, if_neg]
    simp [hs]
  · cases hL : ctx.allowedMembers with
    | none => simp [validateMember_unrestricted _ _ hL, memberAllowedSpec]
    | some L =>
      rw [validateMember_defined u L ctx hL]
      cases hs : memberAllowedSpec u (some L) <;> simp [hs]
  · intro L hL hs
    rw [validateMember_defined u L ctx hL, if_neg]
    simp [hs]

/-- Claim C6 witness: acceptance is case-insensitive, and a denial carries
the message enumerating the configured members. -/
theorem access_guard_set_membership_witness :
    validateRepo (some "ACME") (some "Web") ctxAcme = .ok none
    ∧ validateMember (some "carol") ctxAcme
      = .ok (some (memberDenialMsg (some "carol") ["alice", "bob"])) :=
  ⟨((access_guard_set_membership "ACME" "Web" "carol" ctxAcme).1).mpr (by decide),
   (access_guard_set_membership "ACME" "Web" "carol" ctxAcme).2.2.2
     ["alice", "bob"] rfl (by decide)⟩

/-- Claim C2: a read-tool call whose (owner, repo) pair is not in the
configured repo allow-list returns the structured access-denied payload and
performs zero network calls, with the repo check decided before the member
check (the outcome is the repo denial whatever the username field holds). -/
theorem read_tool_denied_repo_no_network
    (name : String) (input : ToolInput) (ctx : ToolContext) (net : NetOracle)
    (o r : String) (L : List RepoId)
    (hname : name ∈ fetchToolNames)
    (ho : input.owner = some o) (hr : input.repo = some r)
    (hL : ctx.allowedRepos = some L)
    (hdenied : repoAllowedSpec o r (some L) = false) :
    executeTool name input ctx net
      = ⟨.ok (jsonErr (repoDenialMsg (some o) (some r) L)), []⟩ := by
  have hval : validateRepo input.owner input.repo ctx
      = .ok (some (repoDenialMsg (some o) (some r) L)) := by
    rw [ho, hr, validateRepo_defined o r L ctx hL, if_neg]
    simp [hdenied]
  have hmsg : repoDenialMsg (some o) (some r) L
      = repoDenialMsg input.owner input.repo L := by rw [ho, hr]
  simp only [fetchToolNames, List.mem_cons, List.not_mem_nil, or_false] at hname
  rcases hname with h | h | h
  · rw [h, executeTool_commits, fetchToolRun_repo_denied _ _ _ _ _ hval]
  · rw [h, executeTool_prs, fetchToolRun_repo_denied _ _ _ _ _ hval]
  · rw [h, executeTool_issues, fetchToolRun_repo_denied _ _ _ _ _ hval]

/-- Claim C2 witness: the scenario with repos allow-list acme/web and a call
for acme/infra — denial listing acme/web only, no network call. -/
theorem read_tool_denied_repo_no_network_witness :
    executeTool "fetch_pull_requests"
        ⟨some "acme", some "infra", some "alice", none⟩ ctxAcme quietNet
      = ⟨.ok (jsonErr (repoDenialMsg (some "acme") (some "infra")
          [⟨"acme", "web"⟩])), []⟩ :=
  read_tool_denied_repo_no_network "fetch_pull_requests"
    ⟨some "acme", some "infra", some "alice", none⟩ ctxAcme quietNet
    "acme" "infra" [⟨"acme", "web"⟩]
    (by decide) rfl rfl rfl (by decide)

/-- Claim C3: the posting tool returns the no-notes validation error on a
missing or empty standup array, and when a member allow-list is configured
any disallowed username in the entries rejects the whole request with the
access-denied payload before any posting network call. -/
theorem post_standup_rejects_before_posting
    (input : ToolInput) (ctx : ToolContext) (net : NetOracle) :
    ((input.standup_notes = none ∨ input.standup_notes = some []) →
      executeTool "post_standup_to_slack" input ctx net
        = ⟨.ok (jsonErr noNotesMsg), []⟩)
    ∧ (∀ notes L, input.standup_notes = some notes →
        ctx.allowedMembers = some L →
        invalidUsersOf notes L ≠ [] →
        executeTool "post_standup_to_slack" input ctx net
          = ⟨.ok (jsonErr (postDenialMsg (invalidUsersOf notes L) L)), []⟩) := by
  constructor
  · rintro (h | h) <;> rw [executeTool_post] <;> simp [runPostStandup, h]
  · intro notes L hnotes hL hinv
    rw [executeTool_post]
    have hpos : 0 < (invalidUsersOf notes L).length := List.length_pos.mpr hinv
    cases notes with
    | nil => exact (hinv rfl).elim
    | cons e es =>
      simp only [runPostStandup, hnotes, hL]
      rw [if_pos hpos]

/-- Claim C3 witness: empty standup array gives the no-notes error, and an
entry for carol is rejected whole with no posting call. -/
theorem post_standup_rejects_before_posting_witness :
    executeTool "post_standup_to_slack" inputPostEmpty ctxAcme quietNet
      = ⟨.ok (jsonErr noNotesMsg), []⟩
    ∧ executeTool "post_standup_to_slack" inputPostCarol ctxAcme quietNet
      = ⟨.ok (jsonErr (postDenialMsg ["carol"] ["alice", "bob"])), []⟩ :=
  ⟨(post_standup_rejects_before_posting inputPostEmpty ctxAcme quietNet).1
      (Or.inr rfl),
   (post_standup_rejects_before_posting inputPostCarol ctxAcme quietNet).2
      [⟨"carol", [], [], []⟩] ["alice", "bob"] rfl rfl (by decide)⟩

/-- Claim C9: the error-normalizing map is total and best-effort — messages
signalling not-found/404, bad-credentials/401 or rate-limit/403 map to the
corresponding fixed category message, any unrecognized Error passes through
with its original message, and any non-Error value is stringified. -/
theorem format_github_error_total_map :
    (∀ s, formatGitHubError (JsError.nonError s) = s)
    ∧ (∀ m, (strIncludes m "Not Found" || strIncludes m "404") = true →
        formatGitHubError (JsError.jsError m) = notFoundMsg)
    ∧ (∀ m, (strIncludes m "Not Found" || strIncludes m "404") = false →
        (strIncludes m "Bad credentials" || strIncludes m "401") = true →
        formatGitHubError (JsError.jsError m) = badCredsMsg)
    ∧ (∀ m, (strIncludes m "Not Found" || strIncludes m "404") = false →
        (strIncludes m "Bad credentials" || strIncludes m "401") = false →
        (strIncludes m "rate limit" || strIncludes m "403") = true →
        formatGitHubError (JsError.jsError m) = rateLimitMsg)
    ∧ (∀ m, (strIncludes m "Not Found" || strIncludes m "404") = false →
        (strIncludes m "Bad credentials" || strIncludes m "401") = false →
        (strIncludes m "rate limit" || strIncludes m "403") = false →
        formatGitHubError (JsError.jsError m) = m) := by
  refine ⟨fun s => rfl, ?_, ?_, ?_, ?_⟩
  · intro m h1
    simp [formatGitHubError, h1]
  · intro m h1 h2
    simp [formatGitHubError, h1, h2]
  · intro m h1 h2 h3
    simp [formatGitHubError, h1, h2, h3]
  · intro m h1 h2 h3
    simp [formatGitHubError, h1, h2, h3]

/-- Claim C9 witness: a 404-shaped message maps to the not-found category
and an unrecognized message passes through unchanged. -/
theorem format_github_error_total_map_witness :
    formatGitHubError (JsError.jsError "HttpError: Not Found") = notFoundMsg
    ∧ formatGitHubError (JsError.jsError "boom") = "boom" :=
  ⟨format_github_error_total_map.2.1 "HttpError: Not Found" (by decide),
   format_github_error_total_map.2.2.2.2 "boom" (by decide) (by decide) (by decide)⟩

/-- Claim C10 counterexample: with a non-empty repo allow-list configured
and the repo field absent, `executeTool` can still return the structured
access-denied payload with no exception — here the given owner matches no
configured pair's owner, so the short-circuit conjunction never evaluates
the missing repo. -/
theorem missing_input_structured_denial_counterexample :
    executeTool "fetch_commits" ⟨some "acme", none, some "alice", none⟩
        ctxOther quietNet
      = ⟨.ok (jsonErr (repoDenialMsg (some "acme") none [⟨"someoneelse", "web"⟩])),
          []⟩ := by
  decide

/-- Claim C10 (amended): for the three read tools, a missing owner with a
non-empty configured repo allow-list, a missing repo when some configured
pair's owner matches the given owner case-insensitively, or a missing
username with a non-empty configured member allow-list once the repo check
passed, makes the validation helper throw; the exception escapes
`executeTool` with zero network calls, and the driver converts it into a
tool-result block carrying the exception message with the `is_error` flag
set.  (A missing repo whose owner matches no configured pair instead yields
the structured access-denied payload, per the counterexample.) -/
theorem missing_input_exception_behavior :
    (∀ name input ctx net p L, name ∈ fetchToolNames → input.owner = none →
      ctx.allowedRepos = some (p :: L) →
      executeTool name input ctx net = ⟨.error tlcUndefinedMsg, []⟩)
    ∧ (∀ name input ctx net o L, name ∈ fetchToolNames → input.owner = some o →
        input.repo = none → ctx.allowedRepos = some L →
        (∃ p ∈ L, jsToLower p.owner = jsToLower o) →
        executeTool name input ctx net = ⟨.error tlcUndefinedMsg, []⟩)
    ∧ (∀ name input ctx net m M, name ∈ fetchToolNames → input.username = none →
        validateRepo input.owner input.repo ctx = .ok none →
        ctx.allowedMembers = some (m :: M) →
        executeTool name input ctx net = ⟨.error tlcUndefinedMsg, []⟩)
    ∧ (∀ ctx net tu e calls,
        executeTool tu.name tu.input ctx net = ⟨.error e, calls⟩ →
        execToolUse ctx net tu = (⟨tu.id, jsonErr e, true⟩, calls)) := by
  refine ⟨?_, ?_, ?_, ?_⟩
  · intro name input ctx net p L hname ho hL
    have hval : validateRepo input.owner input.repo ctx = .error tlcUndefinedMsg := by
      rw [ho]
      exact validateRepo_owner_missing input.repo p L ctx hL
    simp only [fetchToolNames, List.mem_cons, List.not_mem_nil, or_false] at hname
    rcases hname with h | h | h
    · rw [h, executeTool_commits, fetchToolRun_repo_throw _ _ _ _ _ hval]
    · rw [h, executeTool_prs, fetchToolRun_repo_throw _ _ _ _ _ hval]
    · rw [h, executeTool_issues, fetchToolRun_repo_throw _ _ _ _ _ hval]
  · intro name input ctx net o L hname ho hr hL hex
    have hval : validateRepo input.owner input.repo ctx = .error tlcUndefinedMsg := by
      rw [ho, hr]
      exact validateRepo_repo_missing o L ctx hL hex
    simp only [fetchToolNames, List.mem_cons, List.not_mem_nil, or_false] at hname
    rcases hname with h | h | h
    · rw [h, executeTool_commits, fetchToolRun_repo_throw _ _ _ _ _ hval]
    · rw [h, executeTool_prs, fetchToolRun_repo_throw _ _ _ _ _ hval]
    · rw [h, executeTool_issues, fetchToolRun_repo_throw _ _ _ _ _ hval]
  · intro name input ctx net m M hname hu hrepo hM
    have hval : validateMember input.username ctx = .error tlcUndefinedMsg := by
      rw [hu]
      exact validateMember_username_missing m M ctx hM
    simp only [fetchToolNames, List.mem_cons, List.not_mem_nil, or_false] at hname
    rcases hname with h | h | h
    · rw [h, executeTool_commits, fetchToolRun_member_throw _ _ _ _ _ hrepo hval]
    · rw [h, executeTool_prs, fetchToolRun_member_throw _ _ _ _ _ hrepo hval]
    · rw [h, executeTool_issues, fetchToolRun_member_throw _ _ _ _ _ hrepo hval]
  · intro ctx net tu e calls h
    simp [execToolUse, h]

/-- Claim C10 witness: a missing owner against the configured acme/web list
escapes as an exception, and the driver shapes it into an is_error block. -/
theorem missing_input_exception_behavior_witness :
    executeTool "fetch_commits" ⟨none, some "web", some "alice", none⟩
        ctxAcme quietNet
      = ⟨.error tlcUndefinedMsg, []⟩
    ∧ execToolUse ctxAcme quietNet
        ⟨"toolu_09", "fetch_commits", ⟨none, some "web", some "alice", none⟩⟩
      = (⟨"toolu_09", jsonErr tlcUndefinedMsg, true⟩, []) :=
  ⟨missing_input_exception_behavior.1 "fetch_commits"
      ⟨none, some "web", some "alice", none⟩ ctxAcme quietNet
      ⟨"acme", "web"⟩ [] (by decide) rfl rfl,
   missing_input_exception_behavior.2.2.2 ctxAcme quietNet
      ⟨"toolu_09", "fetch_commits", ⟨none, some "web", some "alice", none⟩⟩
      tlcUndefinedMsg []
      (missing_input_exception_behavior.1 "fetch_commits"
        ⟨none, some "web", some "alice", none⟩ ctxAcme quietNet
        ⟨"acme", "web"⟩ [] (by decide) rfl rfl)⟩

/-- In a position-tagged job list, `find?` recovers the job at a given
position, whatever the list order. -/
theorem find_tag (f : Nat → β) (i : Nat) (order : List Nat) (h : i ∈ order) :
    (order.map (fun j => (j, f j))).find? (fun p => p.fst == i) = some (i, f i) := by
  induction order with
  | nil => cases h
  | cons j rest ih =>
    by_cases hji : j = i
    · subst hji
      simp [List.find?]
    · have hb : (j == i) = false := by simp [hji]
      have hmem : i ∈ rest := by
        rcases List.mem_cons.mp h with h2 | h2
        · exact absurd h2.symm hji
        · exact h2
      simp [List.find?, hb, ih hmem]

/-- `filterMap` of an everywhere-`some` function is a `map`. -/
theorem filterMap_all_some (L : List γ) (h : γ → Option β) (g : γ → β)
    (hp : ∀ i ∈ L, h i = some (g i)) : L.filterMap h = L.map g := by
  induction L with
  | nil => rfl
  | cons a as ih =>
    rw [List.filterMap_cons, hp a (List.mem_cons_self a as), List.map_cons,
      ih (fun b hb => hp b (List.mem_cons_of_mem a hb))]

/-- Indexing a list over the range of its length is the identity traversal. -/
theorem range_map_getD (l : List α) (d : α) (f : α → β) :
    (List.range l.length).map (fun i => f (l.getD i d)) = l.map f := by
  induction l with
  | nil => rfl
  | cons a t ih =>
    rw [List.length_cons, List.range_succ_eq_map, List.map_cons, List.map_map]
    show f a :: (List.range t.length).map (fun i => f (t.getD i d)) = f a :: t.map f
    rw [ih]

/-- The Promise.all join: placing each finished execution back at its input
position reproduces the in-order execution, for every completion order that
is a permutation of the positions. -/
theorem joinResults_dispatchInOrder (ctx : ToolContext) (net : NetOracle)
    (tus : List ToolUse) (order : List Nat)
    (hperm : order.Perm (List.range tus.length)) :
    joinResults tus.length (dispatchInOrder ctx net tus order)
      = (tus.map (execToolUse ctx net)).map Prod.fst := by
  unfold joinResults dispatchInOrder
  rw [filterMap_all_some _ _
    (fun i => (execToolUse ctx net (tus.getD i defaultToolUse)).fst) ?hp]
  case hp =>
    intro i hi
    have hmem : i ∈ order := hperm.mem_iff.mpr hi
    rw [find_tag (fun j => execToolUse ctx net (tus.getD j defaultToolUse)) i order hmem]
    rfl
  rw [List.map_map]
  exact range_map_getD tus defaultToolUse (fun tu => (execToolUse ctx net tu).fst)

/-- Every tool-result block carries the correlation identifier of the tool
call it answers. -/
theorem execToolUse_id (ctx : ToolContext) (net : NetOracle) (tu : ToolUse) :
    (execToolUse ctx net tu).fst.tool_use_id = tu.id := by
  rcases h : executeTool tu.name tu.input ctx net with ⟨res, calls⟩
  cases res <;> simp [execToolUse, h]

/-- The identifiers of a turn's tool-result blocks are exactly the
identifiers of its tool calls, in order. -/
theorem exec_results_ids (ctx : ToolContext) (net : NetOracle) (tus : List ToolUse) :
    ((tus.map (execToolUse ctx net)).map Prod.fst).map ToolResultBlock.tool_use_id
      = tus.map ToolUse.id := by
  rw [List.map_map, List.map_map]
  exact List.map_congr_left (fun tu _ => execToolUse_id ctx net tu)

/-- A turn whose response holds tool calls appends the response entry and
one results entry, and reports continue. -/
theorem runAgentTurn_ok (env : Env) (ctx : ToolContext) (msgs : List Message)
    (content : List Block)
    (h : env.inference msgs = .ok content) (hne : toolUsesOf content ≠ []) :
    runAgentTurn env ctx msgs
      = ⟨false,
          msgs ++ [assistantMsg content,
            toolResultsMsg
              (((toolUsesOf content).map (execToolUse ctx env.net)).map Prod.fst)],
          (((toolUsesOf content).map (execToolUse ctx env.net)).map Prod.snd).flatten⟩ := by
  have hemp : (toolUsesOf content).isEmpty = false := by
    cases hc : toolUsesOf content with
    | nil => exact absurd hc hne
    | cons a as => rfl
  simp [runAgentTurn, h, hemp]

/-- A turn whose response holds no tool calls appends only the response
entry and reports finished. -/
theorem runAgentTurn_no_tools_done (env : Env) (ctx : ToolContext)
    (msgs : List Message) (content : List Block)
    (h : env.inference msgs = .ok content) (hz : toolUsesOf content = []) :
    runAgentTurn env ctx msgs = ⟨true, msgs ++ [assistantMsg content], []⟩ := by
  simp [runAgentTurn, h, hz]

/-- A turn whose response holds tool calls reports continue. -/
theorem runAgentTurn_not_done (env : Env) (ctx : ToolContext) (msgs : List Message)
    (h : ∃ content, env.inference msgs = .ok content ∧ toolUsesOf content ≠ []) :
    (runAgentTurn env ctx msgs).done = false := by
  rcases h with ⟨content, h1, h2⟩
  rw [runAgentTurn_ok env ctx msgs content h1 h2]

/-- A bounded loop executes at most its fuel many turns. -/
theorem loopFrom_turns_le (env : Env) (ctx : ToolContext) :
    ∀ (k : Nat) (msgs : List Message), (loopFrom env ctx k msgs).turns ≤ k := by
  intro k
  induction k with
  | zero => intro msgs; exact Nat.le_refl 0
  | succ n ih =>
    intro msgs
    simp only [loopFrom]
    by_cases hd : (runAgentTurn env ctx msgs).done
    · simp [hd]
    · simp only [hd, if_false, Bool.false_eq_true]
      exact Nat.succ_le_succ (ih _)

/-- If every turn keeps issuing tool calls, the bounded loop consumes all
its fuel and ends exhausted. -/
theorem loopFrom_exhausted (env : Env) (ctx : ToolContext)
    (h : ∀ msgs, (runAgentTurn env ctx msgs).done = false) :
    ∀ (k : Nat) (msgs : List Message),
      (loopFrom env ctx k msgs).status = .exhausted
      ∧ (loopFrom env ctx k msgs).turns = k := by
  intro k
  induction k with
  | zero => intro msgs; exact ⟨rfl, rfl⟩
  | succ n ih =>
    intro msgs
    simp only [loopFrom, h msgs, if_false, Bool.false_eq_true]
    exact ⟨(ih _).1, by rw [(ih _).2]⟩

/-- Claim C1: a turn whose response holds N tool calls (N at least 1)
appends exactly one new history entry bundling exactly N tool-result
blocks, each carrying the correlation identifier of its originating call,
and the Promise.all join reproduces this pairing for every completion
order. -/
theorem turn_appends_matching_tool_results
    (env : Env) (ctx : ToolContext) (msgs : List Message)
    (content : List Block) (order : List Nat)
    (hinf : env.inference msgs = .ok content)
    (hne : toolUsesOf content ≠ [])
    (hperm : order.Perm (List.range (toolUsesOf content).length)) :
    joinResults (toolUsesOf content).length
        (dispatchInOrder ctx env.net (toolUsesOf content) order)
      = ((toolUsesOf content).map (execToolUse ctx env.net)).map Prod.fst
    ∧ (runAgentTurn env ctx msgs).messages
      = msgs ++ [assistantMsg content,
          toolResultsMsg
            (((toolUsesOf content).map (execToolUse ctx env.net)).map Prod.fst)]
    ∧ (((toolUsesOf content).map (execToolUse ctx env.net)).map Prod.fst).length
      = (toolUsesOf content).length
    ∧ (((toolUsesOf content).map (execToolUse ctx env.net)).map Prod.fst).map
        ToolResultBlock.tool_use_id
      = (toolUsesOf content).map ToolUse.id
    ∧ (runAgentTurn env ctx msgs).done = false := by
  refine ⟨joinResults_dispatchInOrder ctx env.net _ order hperm, ?_, ?_,
    exec_results_ids ctx env.net _, ?_⟩
  · rw [runAgentTurn_ok env ctx msgs content hinf hne]
  · simp
  · rw [runAgentTurn_ok env ctx msgs content hinf hne]

/-- Claim C1 witness: a two-call response joined under the reversed
completion order still pairs each result with its call. -/
theorem turn_appends_matching_tool_results_witness :
    joinResults (toolUsesOf contentTwo).length
        (dispatchInOrder ctxAcme envTwo.net (toolUsesOf contentTwo) [1, 0])
      = ((toolUsesOf contentTwo).map (execToolUse ctxAcme envTwo.net)).map Prod.fst
    ∧ (runAgentTurn envTwo ctxAcme []).messages
      = [] ++ [assistantMsg contentTwo,
          toolResultsMsg
            (((toolUsesOf contentTwo).map (execToolUse ctxAcme envTwo.net)).map Prod.fst)]
    ∧ (((toolUsesOf contentTwo).map (execToolUse ctxAcme envTwo.net)).map Prod.fst).length
      = (toolUsesOf contentTwo).length
    ∧ (((toolUsesOf contentTwo).map (execToolUse ctxAcme envTwo.net)).map Prod.fst).map
        ToolResultBlock.tool_use_id
      = (toolUsesOf contentTwo).map ToolUse.id
    ∧ (runAgentTurn envTwo ctxAcme []).done = false :=
  turn_appends_matching_tool_results envTwo ctxAcme [] contentTwo [1, 0]
    rfl (by decide) (by decide)

/-- Claim C4: a failed inference call ends the turn after that single
attempt — the turn reports finished with history untouched and no network
calls, and the surrounding loop stops after exactly one turn, so no second
inference call is made for that task. -/
theorem inference_failure_single_attempt
    (env : Env) (ctx : ToolContext) (msgs : List Message) (e : JsError)
    (h : env.inference msgs = .error e) :
    runAgentTurn env ctx msgs = ⟨true, msgs, []⟩
    ∧ ∀ k, loopFrom env ctx (k + 1) msgs = ⟨.done, msgs, 1⟩ := by
  have ht : runAgentTurn env ctx msgs = ⟨true, msgs, []⟩ := by
    simp [runAgentTurn, h]
  refine ⟨ht, fun k => ?_⟩
  simp [loopFrom, ht]

/-- Claim C4 witness: an authentication-shaped provider failure gives one
finished turn and a loop that stops after one iteration. -/
theorem inference_failure_single_attempt_witness :
    runAgentTurn envFail ctxAcme [] = ⟨true, [], []⟩
    ∧ loopFrom envFail ctxAcme MAX_ITERATIONS [] = ⟨SessionStatus.done, [], 1⟩ :=
  ⟨(inference_failure_single_attempt envFail ctxAcme []
      (.jsError "401 authentication_error") rfl).1,
   (inference_failure_single_attempt envFail ctxAcme []
      (.jsError "401 authentication_error") rfl).2 19⟩

/-- Claim C5: the autonomous session executes at most 20 turns; a turn
whose response holds zero tool-call blocks ends the session after exactly
that turn; and if every turn keeps issuing tool calls the session stops
exhausted at exactly the 20th iteration. -/
theorem session_bounded_by_max_iterations
    (env : Env) (ctx : ToolContext) (p : String) :
    (runAgentLoop env ctx p).turns ≤ MAX_ITERATIONS
    ∧ (∀ msgs k content, env.inference msgs = .ok content →
        toolUsesOf content = [] →
        loopFrom env ctx (k + 1) msgs
          = ⟨.done, msgs ++ [assistantMsg content], 1⟩)
    ∧ ((∀ msgs, ∃ content, env.inference msgs = .ok content
          ∧ toolUsesOf content ≠ []) →
        (runAgentLoop env ctx p).status = .exhausted
        ∧ (runAgentLoop env ctx p).turns = MAX_ITERATIONS) := by
  refine ⟨loopFrom_turns_le env ctx MAX_ITERATIONS _, ?_, ?_⟩
  · intro msgs k content h1 h2
    have ht := runAgentTurn_no_tools_done env ctx msgs content h1 h2
    simp [loopFrom, ht]
  · intro hall
    have hnd : ∀ msgs, (runAgentTurn env ctx msgs).done = false :=
      fun msgs => runAgentTurn_not_done env ctx msgs (hall msgs)
    exact ⟨(loopFrom_exhausted env ctx hnd MAX_ITERATIONS _).1,
           (loopFrom_exhausted env ctx hnd MAX_ITERATIONS _).2⟩

/-- Claim C5 witness: a provider that always issues a tool call drives the
autonomous session to the exhausted state at exactly 20 turns. -/
theorem session_bounded_by_max_iterations_witness :
    (runAgentLoop envLooping ctxAcme "task").status = SessionStatus.exhausted
    ∧ (runAgentLoop envLooping ctxAcme "task").turns = MAX_ITERATIONS :=
  (session_bounded_by_max_iterations envLooping ctxAcme "task").2.2
    (fun _ => ⟨[blockFetchAlice], rfl, by decide⟩)

/-- Claim C7: in the interactive session an input line equal to exit or
quit after trimming, case-insensitively, ends the read-loop immediately
with zero further turns and the remaining lines unread; a blank line is
skipped; and every other line is appended to the shared history, drives a
sub-loop of at most 20 turns, and the next lines continue from the
accumulated history. -/
theorem interactive_exit_ends_loop
    (env : Env) (ctx : ToolContext) (line : String) (rest : List String)
    (msgs : List Message) :
    ((jsToLower (jsTrim line) = "exit" ∨ jsToLower (jsTrim line) = "quit") →
      runInteractive env ctx (line :: rest) msgs = ⟨msgs, 0⟩)
    ∧ (jsTrim line = "" →
        runInteractive env ctx (line :: rest) msgs
          = runInteractive env ctx rest msgs)
    ∧ (jsTrim line ≠ "" → jsToLower (jsTrim line) ≠ "exit" →
        jsToLower (jsTrim line) ≠ "quit" →
        runInteractive env ctx (line :: rest) msgs
          = ⟨(runInteractive env ctx rest
                (loopFrom env ctx MAX_ITERATIONS
                  (msgs ++ [userMsg (jsTrim line)])).messages).messages,
             (loopFrom env ctx MAX_ITERATIONS
                (msgs ++ [userMsg (jsTrim line)])).turns
               + (runInteractive env ctx rest
                   (loopFrom env ctx MAX_ITERATIONS
                     (msgs ++ [userMsg (jsTrim line)])).messages).turns⟩
        ∧ (loopFrom env ctx MAX_ITERATIONS
            (msgs ++ [userMsg (jsTrim line)])).turns ≤ MAX_ITERATIONS) := by
  refine ⟨?_, ?_, ?_⟩
  · intro h
    have hne : jsTrim line ≠ "" := by
      intro hemp
      rw [hemp] at h
      rcases h with h | h <;> exact absurd h (by decide)
    rcases h with h | h
    · simp [runInteractive, hne, h]
    · simp [runInteractive, hne, h]
  · intro h
    simp [runInteractive, h]
  · intro h1 h2 h3
    exact ⟨by simp [runInteractive, h1, h2, h3],
      loopFrom_turns_le env ctx MAX_ITERATIONS _⟩

/-- Claim C7 witness: the line EXIT (with trailing space) ends the session
with no turn executed, skipping the remaining input. -/
theorem interactive_exit_ends_loop_witness :
    runInteractive envLooping ctxAcme ["EXIT ", "who is alice"] [] = ⟨[], 0⟩ :=
  (interactive_exit_ends_loop envLooping ctxAcme "EXIT " ["who is alice"] []).1
    (Or.inl (by decide))

/-- The serialized form of every JSON value starts with one of the six
characters n, t, f, double quote, opening bracket, opening brace. -/
theorem stringifyChars_starts (j : JsValue) :
    (stringifyChars j).head? = some 'n' ∨ (stringifyChars j).head? = some 't'
    ∨ (stringifyChars j).head? = some 'f' ∨ (stringifyChars j).head? = some quoteChar
    ∨ (stringifyChars j).head? = some '[' ∨ (stringifyChars j).head? = some lbraceChar := by
  cases j with
  | jnull => exact Or.inl rfl
  | jbool b =>
    cases b with
    | false => exact Or.inr (Or.inr (Or.inl rfl))
    | true => exact Or.inr (Or.inl rfl)
  | jstr s => exact Or.inr (Or.inr (Or.inr (Or.inl rfl)))
  | jarr es => exact Or.inr (Or.inr (Or.inr (Or.inr (Or.inl rfl))))
  | jobj fs => exact Or.inr (Or.inr (Or.inr (Or.inr (Or.inr rfl))))

/-- A successful read-tool outcome is always a serialized JSON value: a
structured error payload or the stringified fetched data. -/
theorem fetchToolRun_ok_json
    (fetch : JsStr → JsStr → JsStr → String → Except JsError JsValue)
    (call : JsStr → JsStr → JsStr → String → NetCall)
    (input : ToolInput) (ctx : ToolContext) (s : String)
    (h : (fetchToolRun fetch call input ctx).result = .ok s) :
    ∃ j, s = JsValue.stringify j := by
  rcases hvr : validateRepo input.owner input.repo ctx with e | op
  · simp [fetchToolRun, hvr] at h
  · cases op with
    | some msg =>
      simp [fetchToolRun, hvr] at h
      exact ⟨errJson msg, h.symm⟩
    | none =>
      rcases hvm : validateMember input.username ctx with e | op2
      · simp [fetchToolRun, hvr, hvm] at h
      · cases op2 with
        | some msg =>
          simp [fetchToolRun, hvr, hvm] at h
          exact ⟨errJson msg, h.symm⟩
        | none =>
          rcases hf : fetch input.owner input.repo input.username ctx.since with e | data
          · simp [fetchToolRun, hvr, hvm, hf] at h
            exact ⟨errJson (formatGitHubError e), h.symm⟩
          · simp [fetchToolRun, hvr, hvm, hf] at h
            exact ⟨data, h.symm⟩

/-- A successful outcome of the posting step is either a structured error
payload or the plain confirmation string counting the entries. -/
theorem postNotes_ok_shape (notes : List StandupEntry) (ctx : ToolContext)
    (net : NetOracle) (s : String)
    (h : (postNotes notes ctx net).result = .ok s) :
    (∃ j, s = JsValue.stringify j) ∨ s = postConfirmMsg notes.length := by
  rcases hp : net.slackPost ctx.slackToken ctx.slackChannelId
      (notes.map fun e => SlackNote.mk e.username e.yesterday e.today e.blockers "")
      standupHeader net.dateLabel with e | u
  · simp [postNotes, hp] at h
    exact Or.inl ⟨errJson (slackFailureMsg (jsErrMessage e)), h.symm⟩
  · simp [postNotes, hp] at h
    right
    simpa [List.length_map] using h.symm

/-- A successful outcome of the posting tool is either a structured error
payload or the plain confirmation string for exactly the supplied entries. -/
theorem runPostStandup_ok_shape (input : ToolInput) (ctx : ToolContext)
    (net : NetOracle) (s : String)
    (h : (runPostStandup input ctx net).result = .ok s) :
    (∃ j, s = JsValue.stringify j)
    ∨ ∃ notes, input.standup_notes = some notes ∧ s = postConfirmMsg notes.length := by
  rcases hn : input.standup_notes with _ | notes
  · left
    simp [runPostStandup, hn] at h
    exact ⟨errJson noNotesMsg, h.symm⟩
  · cases notes with
    | nil =>
      left
      simp [runPostStandup, hn] at h
      exact ⟨errJson noNotesMsg, h.symm⟩
    | cons e0 es =>
      rcases hm : ctx.allowedMembers with _ | L
      · simp only [runPostStandup, hn, hm] at h
        rcases postNotes_ok_shape (e0 :: es) ctx net s h with hj | hc
        · exact Or.inl hj
        · exact Or.inr ⟨e0 :: es, rfl, hc⟩
      · simp only [runPostStandup, hn, hm] at h
        by_cases hinv : 0 < (invalidUsersOf (e0 :: es) L).length
        · rw [if_pos hinv] at h
          simp at h
          exact Or.inl ⟨errJson (postDenialMsg (invalidUsersOf (e0 :: es) L) L), h.symm⟩
        · rw [if_neg hinv] at h
          rcases postNotes_ok_shape (e0 :: es) ctx net s h with hj | hc
          · exact Or.inl hj
          · exact Or.inr ⟨e0 :: es, rfl, hc⟩

/-- Claim C8 counterexample: the posting tool's success result is the plain
confirmation string, which is not the serialization of any JSON value — so
not every tool result is a JSON string. -/
theorem post_confirm_not_json_counterexample :
    (executeTool "post_standup_to_slack" inputPostAlice ctxOpen quietNet).result
      = .ok (postConfirmMsg 1)
    ∧ ¬ ∃ j : JsValue, JsValue.stringify j = postConfirmMsg 1 := by
  constructor
  · decide
  · rintro ⟨j, hj⟩
    have hdata : stringifyChars j = (postConfirmMsg 1).data := congrArg String.data hj
    have hhead := stringifyChars_starts j
    rw [hdata] at hhead
    have hS : (postConfirmMsg 1).data.head? = some 'S' := by decide
    rw [hS] at hhead
    rcases hhead with h | h | h | h | h | h <;> exact absurd h (by decide)

/-- Claim C8 (amended): every result of the three read tools and of the
unknown-tool branch is a JSON string, every failure payload is a JSON
string, while the posting tool's success result is the plain (non-JSON)
confirmation string; exceptions escaping the executor become tool-result
blocks with the `is_error` flag set, and intentionally returned payloads
become blocks with no flag. -/
theorem tool_results_json_and_error_flags :
    (∀ name input ctx net s, name ∈ fetchToolNames →
      (executeTool name input ctx net).result = .ok s → ∃ j, s = JsValue.stringify j)
    ∧ (∀ name input ctx net s, name ∉ allToolNames →
      (executeTool name input ctx net).result = .ok s → ∃ j, s = JsValue.stringify j)
    ∧ (∀ input ctx net s,
        (executeTool "post_standup_to_slack" input ctx net).result = .ok s →
        (∃ j, s = JsValue.stringify j)
        ∨ ∃ notes, input.standup_notes = some notes
            ∧ s = postConfirmMsg notes.length)
    ∧ (∀ ctx net tu e calls,
        executeTool tu.name tu.input ctx net = ⟨.error e, calls⟩ →
        execToolUse ctx net tu = (⟨tu.id, jsonErr e, true⟩, calls))
    ∧ (∀ ctx net tu s calls,
        executeTool tu.name tu.input ctx net = ⟨.ok s, calls⟩ →
        execToolUse ctx net tu = (⟨tu.id, s, false⟩, calls)) := by
  refine ⟨?_, ?_, ?_, ?_, ?_⟩
  · intro name input ctx net s hname h
    simp only [fetchToolNames, List.mem_cons, List.not_mem_nil, or_false] at hname
    rcases hname with hn | hn | hn
    · rw [hn, executeTool_commits] at h
      exact fetchToolRun_ok_json _ _ input ctx s h
    · rw [hn, executeTool_prs] at h
      exact fetchToolRun_ok_json _ _ input ctx s h
    · rw [hn, executeTool_issues] at h
      exact fetchToolRun_ok_json _ _ input ctx s h
  · intro name input ctx net s hname h
    simp only [allToolNames, fetchToolNames, List.mem_append, List.mem_cons,
      List.not_mem_nil, or_false, not_or] at hname
    obtain ⟨⟨h1, h2, h3⟩, h4⟩ := hname
    rw [executeTool, if_neg h1, if_neg h2, if_neg h3, if_neg h4] at h
    simp at h
    exact ⟨errJson ("Unknown tool: " ++ name), h.symm⟩
  · intro input ctx net s h
    rw [executeTool_post] at h
    exact runPostStandup_ok_shape input ctx net s h
  · intro ctx net tu e calls h
    simp [execToolUse, h]
  · intro ctx net tu s calls h
    simp [execToolUse, h]

/-- Claim C8 witness: a member denial surfaces as a JSON error payload, and
a successful read-tool execution yields a flag-free tool-result block. -/
theorem tool_results_json_and_error_flags_witness :
    (∃ j, jsonErr (memberDenialMsg (some "carol") ["alice", "bob"]) = JsValue.stringify j)
    ∧ execToolUse ctxAcme quietNet
        ⟨"toolu_03", "fetch_commits", ⟨some "acme", some "web", some "alice", none⟩⟩
      = (⟨"toolu_03", "[]", false⟩,
          [NetCall.commitsCall (some "acme") (some "web") (some "alice")
            "2026-02-17T09:00:00Z"]) :=
  ⟨tool_results_json_and_error_flags.1 "fetch_commits"
      ⟨some "acme", some "web", some "carol", none⟩ ctxAcme quietNet
      (jsonErr (memberDenialMsg (some "carol") ["alice", "bob"]))
      (by decide) (by decide),
   tool_results_json_and_error_flags.2.2.2.2 ctxAcme quietNet
      ⟨"toolu_03", "fetch_commits", ⟨some "acme", some "web", some "alice", none⟩⟩
      "[]"
      [NetCall.commitsCall (some "acme") (some "web") (some "alice")
        "2026-02-17T09:00:00Z"]
      (by decide)⟩

end StandupAgent
